import Mathlib

/-!
Verification of `epub_to_markdown/converter.py` (thawk/epub_to_markdown).

The file shallowly embeds the converter: the EPUB container parser, the HTML
parser and the html2text renderer are external collaborators, so the book is
modelled as data already parsed (a title-metadata list, a flat item list and a
table-of-contents forest), chapter HTML as a flat element list in document
order, and the renderer as a concrete placeholder function.  File writes are
modelled as `(path, bytes)` pairs together with an oracle saying which write
raises; `Except` models an escaping Python exception.
-/

namespace EpubToMarkdown

/-- Python `s.strip().lower()`, the normalisation both title-comparison sites
of `converter.py` use (lines 29-31 and 53/75): drop whitespace on both ends,
then lower-case every character. -/
def normTitle (s : String) : String :=
  String.mk
    ((((s.data.dropWhile Char.isWhitespace).reverse.dropWhile
        Char.isWhitespace).reverse).map Char.toLower)

/-- Python's substring test `needle in hay` on strings. -/
def isSubstring (needle hay : String) : Bool :=
  (List.range (hay.length + 1)).any
    (fun i => (hay.data.drop i).take needle.length == needle.data)

/-- Line 48, `href.split('#')[0]`: the prefix of `href` before the first `#`. -/
def stripFragment (href : String) : String :=
  String.mk (href.data.takeWhile (fun c => c ≠ '#'))

/-- The character class of `re.sub(r'[\\/*?:":<>|]', "", title)` (line 104). -/
def isUnsafeChar (c : Char) : Bool :=
  c ∈ ['\\', '/', '*', '?', ':', '"', '<', '>', '|']

/-- Line 104, the `re.sub` call itself: scan the title and drop
every character the class matches (the replacement is empty). -/
def sanitizeTitle (title : String) : String :=
  String.mk (go title.data)
where
  go : List Char → List Char
    | [] => []
    | c :: cs => if isUnsafeChar c then go cs else c :: go cs

/-- Split a character list at every `/`, like Python's `split('/')`. -/
def splitOnSlash : List Char → List (List Char)
  | [] => [[]]
  | c :: cs =>
    if c = '/' then [] :: splitOnSlash cs
    else
      match splitOnSlash cs with
      | [] => [[c]]
      | p :: ps => (c :: p) :: ps

/-- Line 114, `Path(name).name`: the last component of the path, ignoring
empty components and `.` (pathlib collapses those). -/
def pathName (p : String) : String :=
  String.mk
    ((((splitOnSlash p.data).filter (fun c => c ≠ [] ∧ c ≠ ['.'])).getLast?).getD [])

/-- POSIX `os.path.dirname` (line 22): everything up to the last `/`, with
trailing slashes stripped unless the head is all slashes. -/
def dirname (p : String) : String :=
  let cs := p.data
  match cs.reverse.findIdx? (fun c => c = '/') with
  | none => ""
  | some k =>
    let head := cs.take (cs.length - k)
    if head.all (fun c => c = '/') then String.mk head
    else String.mk ((head.reverse.dropWhile (fun c => c = '/')).reverse)

/-- POSIX `posixpath.join a b` (line 22) for a single right argument. -/
def pjoin (a b : String) : String :=
  if b.data.head? = some '/' then b
  else if a = "" ∨ a.data.getLast? = some '/' then a ++ b
  else a ++ "/" ++ b

/-- One step of `posixpath.normpath`'s component loop: `''` and `.` are
dropped; `..` pops a poppable component, is dropped at an absolute root, and
accumulates otherwise. -/
def normpathStep (initialSlashes : Nat) (acc : List String) (comp : String) : List String :=
  if comp = "" ∨ comp = "." then acc
  else if comp = ".." then
    if initialSlashes ≠ 0 ∧ acc = [] then acc
    else if acc ≠ [] ∧ acc.getLast? ≠ some ".." then acc.dropLast
    else acc ++ [".."]
  else acc ++ [comp]

/-- POSIX `os.path.normpath` (line 22): resolve `.` and `..` segments and
collapse duplicate separators, preserving the leading-slash count rule. -/
def normpath (p : String) : String :=
  if p = "" then "." else
  let initialSlashes : Nat :=
    match p.data with
    | '/' :: '/' :: '/' :: _ => 1
    | '/' :: '/' :: _ => 2
    | '/' :: _ => 1
    | _ => 0
  let comps := ((splitOnSlash p.data).map String.mk).foldl (normpathStep initialSlashes) []
  let path := String.mk (List.replicate initialSlashes '/') ++ String.intercalate "/" comps
  if path = "" then "." else path

/-- Python-dict lookup in an association list whose entries are kept in
insertion order with unique keys. -/
def dictLookup (m : List (String × String)) (k : String) : Option String :=
  (m.find? (fun e => e.1 == k)).map Prod.snd

/-- Python-dict assignment `m[k] = v`: overwrite in place when the key exists,
append otherwise. -/
def dictInsert (m : List (String × String)) (k v : String) : List (String × String) :=
  if m.any (fun e => e.1 == k) then
    m.map (fun e => if e.1 == k then (k, v) else e)
  else m ++ [(k, v)]

/-! ## The chapter-document model (BeautifulSoup is external) -/

/-- A node of a parsed chapter, in document order: an `<img>` (whose `src`
attribute may be absent), a heading `h1`-`h6`, or other flow content. -/
inductive Elem : Type
  | img (src : Option String)
  | heading (lvl : Nat) (text : String)
  | text (s : String)
  deriving DecidableEq, Repr

/-- A parsed chapter document: its elements in document order. -/
structure Doc : Type where
  elems : List Elem
  deriving DecidableEq, Repr

/-- The `src` attributes present on the document's `<img>` tags, in order. -/
def imgSrcs (d : Doc) : List String :=
  d.elems.filterMap fun e =>
    match e with
    | Elem.img (some s) => some s
    | _ => none

/-- The texts of the document's heading elements, in order. -/
def headingTexts (d : Doc) : List String :=
  d.elems.filterMap fun e =>
    match e with
    | Elem.heading _ t => some t
    | _ => none

/-- Lines 18-24 of `converter.py` for one tag: if the tag has a truthy `src`
(Python treats `""` as falsy and skips it), normalise it against the chapter's
directory and rewrite it when the image map knows the result. -/
def rewriteImg (chapterHref : String) (imageMap : List (String × String)) : Elem → Elem
  | Elem.img (some src) =>
    if src = "" then Elem.img (some src)
    else
      match dictLookup imageMap (normpath (pjoin (dirname chapterHref) src)) with
      | some newSrc => Elem.img (some newSrc)
      | none => Elem.img (some src)
  | e => e

/-- Line 31: the bidirectional normalised substring test between the chapter's
toc title and a heading's text. -/
def titleMatches (chapterTitle headingText : String) : Bool :=
  isSubstring (normTitle chapterTitle) (normTitle headingText) ||
    isSubstring (normTitle headingText) (normTitle chapterTitle)

/-- Lines 27-33: find the first heading element; if its text matches the
chapter title, `decompose` it.  Whatever the first heading decides, no later
heading is touched. -/
def removeFirstHeadingIfDup (chapterTitle : String) : List Elem → List Elem
  | [] => []
  | Elem.heading lvl txt :: rest =>
    if titleMatches chapterTitle txt then rest
    else Elem.heading lvl txt :: rest
  | e :: rest => e :: removeFirstHeadingIfDup chapterTitle rest

/-- Lines 13-35, `_process_chapter`: rewrite the image `src`s, then drop the
first heading when it duplicates the chapter's toc title. -/
def processChapter (chapterHref chapterTitle : String)
    (imageMap : List (String × String)) (d : Doc) : Doc :=
  ⟨removeFirstHeadingIfDup chapterTitle (d.elems.map (rewriteImg chapterHref imageMap))⟩

/-! ## The table-of-contents model and the recursive assembler -/

/-- A table-of-contents node: an `epub.Link` leaf, or an
`(epub.Section, sub_items)` pair. -/
inductive TocNode : Type
  | leaf (title href : String)
  | sec (title : String) (children : List TocNode)
  deriving Repr

/-- A content item of the book's flat item list: its in-archive path
(`get_name()`), whether `get_items_of_type(ITEM_IMAGE)` selects it, its raw
bytes, and (for documents) its parsed HTML. -/
structure ContentItem : Type where
  name : String
  isImage : Bool
  content : String
  doc : Doc
  deriving DecidableEq, Repr

/-- Line 123 followed by a lookup: a dict built left to right keeps the last
item for a repeated name. -/
def hrefMapLookup (items : List ContentItem) (k : String) : Option ContentItem :=
  items.reverse.find? (fun i => i.name == k)

/-- One entry appended to `markdown_content`: a generated heading line
`'#' * level ++ " " ++ title ++ "\n"`, or a chapter's rendered Markdown. -/
inductive MdBlock : Type
  | heading (level : Nat) (title : String)
  | chapter (md : String)
  deriving DecidableEq, Repr

/-- The exact string a block contributes to `markdown_content`. -/
def blockStr : MdBlock → String
  | MdBlock.heading level title => String.mk (List.replicate level '#') ++ " " ++ title ++ "\n"
  | MdBlock.chapter md => md

/-- Project a generated heading block to its `(level, title)` pair. -/
def blockHeading? : MdBlock → Option (Nat × String)
  | MdBlock.heading level title => some (level, title)
  | MdBlock.chapter _ => none

/-- Placeholder for the external `html2text` renderer (`h.handle`, line 65):
a concrete Markdown-ish rendering of the document model. -/
def renderElem : Elem → String
  | Elem.heading lvl txt => String.mk (List.replicate lvl '#') ++ " " ++ txt ++ "\n"
  | Elem.text s => s ++ "\n"
  | Elem.img (some s) => "![](" ++ s ++ ")\n"
  | Elem.img none => "\n"

/-- Placeholder for `h.handle(str(processed_soup))`. -/
def renderDoc (d : Doc) : String :=
  String.join (d.elems.map renderElem)

/-- The warning logged at line 68 for a toc link with no matching item. -/
def warnMissing (href : String) : String :=
  "在目录中找到但在 EPUB 中找不到链接: " ++ href

/-- Lines 38-81, `_recursive_add_toc`, returning the blocks appended to
`markdown_content` and the warnings logged.  A leaf resolves its
fragment-stripped href through `href_map`; a heading is emitted only when the
node's normalised title differs from the normalised book title; a section
recurses into its children at `level + 1`. -/
def recursiveAddToc (items : List ContentItem) (imageMap : List (String × String))
    (bookTitle : String) : List TocNode → Nat → List MdBlock × List String
  | [], _ => ([], [])
  | TocNode.leaf title href :: rest, level =>
    (match hrefMapLookup items (stripFragment href) with
     | some docItem =>
       ((if normTitle title ≠ normTitle bookTitle then [MdBlock.heading level title] else [])
          ++ [MdBlock.chapter (renderDoc (processChapter href title imageMap docItem.doc))]
          ++ (recursiveAddToc items imageMap bookTitle rest level).1,
        (recursiveAddToc items imageMap bookTitle rest level).2)
     | none =>
       ((recursiveAddToc items imageMap bookTitle rest level).1,
        warnMissing href :: (recursiveAddToc items imageMap bookTitle rest level).2))
  | TocNode.sec title children :: rest, level =>
    ((if normTitle title ≠ normTitle bookTitle then [MdBlock.heading level title] else [])
       ++ (recursiveAddToc items imageMap bookTitle children (level + 1)).1
       ++ (recursiveAddToc items imageMap bookTitle rest level).1,
     (recursiveAddToc items imageMap bookTitle children (level + 1)).2
       ++ (recursiveAddToc items imageMap bookTitle rest level).2)
  termination_by nodes _ => sizeOf nodes

/-- Lines 122-126: `markdown_content` starts as `[f"# {title}\n"]` and the
toc walk starts at level 2. -/
def assembleBookBlocks (items : List ContentItem) (imageMap : List (String × String))
    (title : String) (toc : List TocNode) : List MdBlock × List String :=
  let r := recursiveAddToc items imageMap title toc 2
  (MdBlock.heading 1 title :: r.1, r.2)

/-! ## The per-book conversion and the run loop -/

/-- The parsed book: the `('DC','title')` metadata values, the flat item
list, and the toc forest. -/
structure Book : Type where
  titles : List String
  items : List ContentItem
  toc : List TocNode

/-- An input path as `convert_epub_to_markdown` sees it: whether
`epub_path.exists()`, what `epub.read_epub` does (parse or raise), and the
filename stem used as the title fallback. -/
structure EpubFile : Type where
  present : Bool
  parse : Except String Book
  stem : String

/-- What one `convert_epub_to_markdown` call did: the file writes it made
(path, bytes; the Markdown write last), the warnings and the errors it
logged. -/
structure RunTrace : Type where
  writes : List (String × String)
  warnLog : List String
  errLog : List String
  deriving DecidableEq, Repr

/-- The image-extraction loop (lines 112-119), with accumulators for the
writes made and the `image_map` built so far.  `wf` is the oracle saying
which path's `open`/`write` raises; a raise escapes as `.error` because the
loop is not inside a `try`. -/
def extractImages (wf : String → Bool) (imagesDir : String) :
    List ContentItem → List (String × String) → List (String × String) →
    Except String (List (String × String) × List (String × String))
  | [], ws, m => Except.ok (ws, m)
  | i :: rest, ws, m =>
    let p := imagesDir ++ "/" ++ pathName i.name
    if wf p then Except.error ("write failed: " ++ p)
    else extractImages wf imagesDir rest (ws ++ [(p, i.content)])
           (dictInsert m i.name ("images/" ++ pathName i.name))

/-- Lines 84-133, `convert_epub_to_markdown`.  A missing file or an
unreadable EPUB is caught and logged (the function returns normally); the
title falls back to the stem when the metadata list is empty; images are
extracted, the toc is walked from level 2, and the joined Markdown is written
to `<output_dir>/<safe_title>/<safe_title>.md`.  Write failures are *not*
caught — they surface as `.error`. -/
def convertEpubToMarkdown (wf : String → Bool) (f : EpubFile) (outputDir : String) :
    Except String RunTrace :=
  if ¬ f.present then Except.ok ⟨[], [], ["文件不存在: " ++ f.stem]⟩
  else
    match f.parse with
    | Except.error e => Except.ok ⟨[], [], ["无法读取 EPUB 文件: " ++ e]⟩
    | Except.ok book =>
      let title := (book.titles.head?).getD f.stem
      let safeTitle := sanitizeTitle title
      let bookOutputDir := outputDir ++ "/" ++ safeTitle
      let imagesDir := bookOutputDir ++ "/images"
      match extractImages wf imagesDir (book.items.filter (fun i => i.isImage)) [] [] with
      | Except.error e => Except.error e
      | Except.ok (imgWrites, imageMap) =>
        let asm := assembleBookBlocks book.items imageMap title book.toc
        let outputFilename := bookOutputDir ++ "/" ++ safeTitle ++ ".md"
        let mdContent := String.intercalate "\n" (asm.1.map blockStr)
        if wf outputFilename then Except.error ("write failed: " ++ outputFilename)
        else Except.ok ⟨imgWrites ++ [(outputFilename, mdContent)], asm.2, []⟩

/-- The loop of `main` (lines 162-163): each file is converted in turn with no
surrounding `try`, so an escaping exception aborts the remaining files. -/
def mainRun (wf : String → Bool) : List EpubFile → String → Except String (List RunTrace)
  | [], _ => Except.ok []
  | f :: fs, outputDir =>
    match convertEpubToMarkdown wf f outputDir with
    | Except.error e => Except.error e
    | Except.ok t => (mainRun wf fs outputDir).map (fun ts => t :: ts)

/-- A file-system model: apply a list of writes over an initial state; a
later write to the same path overwrites an earlier one. -/
def applyWrites (fs : String → Option String) (ws : List (String × String)) :
    String → Option String :=
  ws.foldl (fun acc w => fun p => if p = w.1 then some w.2 else acc p) fs

/-- The empty output directory. -/
def emptyFS : String → Option String := fun _ => none

/-! ## Spec-side definitions (refinement targets, written from the spec) -/

/-- From the spec: the headings a toc forest should produce, in pre-order,
each at level `depth + 1`, top-level nodes having depth 1; a leaf contributes
only when its href resolves, and any node only when its normalised title
differs from the book's. -/
def tocHeadingsSpec (resolves : String → Bool) (bookTitle : String) :
    List TocNode → Nat → List (Nat × String)
  | [], _ => []
  | TocNode.leaf title href :: rest, depth =>
    (if resolves (stripFragment href) ∧ normTitle title ≠ normTitle bookTitle
       then [(depth + 1, title)] else [])
      ++ tocHeadingsSpec resolves bookTitle rest depth
  | TocNode.sec title children :: rest, depth =>
    (if normTitle title ≠ normTitle bookTitle then [(depth + 1, title)] else [])
      ++ tocHeadingsSpec resolves bookTitle children (depth + 1)
      ++ tocHeadingsSpec resolves bookTitle rest depth
  termination_by nodes _ => sizeOf nodes

/-- From the spec (claim about image references): join the source path to the
chapter's directory, normalise, and rewrite whenever the image map knows the
result — with no exception for an empty source path. -/
def specRewriteSrc (chapterHref : String) (imageMap : List (String × String))
    (src : String) : String :=
  match dictLookup imageMap (normpath (pjoin (dirname chapterHref) src)) with
  | some v => v
  | none => src

/-! ## Concrete data for the check cases -/

/-- A minimal chapter body used in the concrete check cases. -/
def exDoc : Doc := ⟨[Elem.text "body"]⟩

/-- A document item named `a.xhtml`. -/
def exItemA : ContentItem := ⟨"a.xhtml", false, "", exDoc⟩

/-- A chapter body with two headings, the first overlapping a chapter title. -/
def exHeadDoc : Doc := ⟨[Elem.text "pre", Elem.heading 1 "Beginnings", Elem.heading 2 "Other"]⟩

/-- A chapter body holding a single `<img>` whose `src` is the empty string. -/
def imgOnlyDoc : Doc := ⟨[Elem.img (some "")]⟩

/-- A book with one image item and one chapter. -/
def exBook : Book :=
  ⟨["B"], [⟨"Images/i.png", true, "RAW", ⟨[]⟩⟩, exItemA], [TocNode.leaf "Ch" "a.xhtml"]⟩

/-- A present, readable input file for `exBook`. -/
def exFileOk : EpubFile := ⟨true, Except.ok exBook, "stem"⟩

/-- An input file whose path does not exist. -/
def exFileMissing : EpubFile := ⟨false, Except.ok exBook, "s"⟩

/-- An input file that `read_epub` fails to parse. -/
def exFileBad : EpubFile := ⟨true, Except.error "zip", "s2"⟩

/-- A book with no images and an empty toc. -/
def exBookPlain : Book := ⟨["B"], [exItemA], []⟩

/-- A present, readable input file for `exBookPlain`. -/
def exFilePlain : EpubFile := ⟨true, Except.ok exBookPlain, "stem"⟩

/-- The image map that the extraction loop of lines 112-119 ends with. -/
def buildImageMap (imgs : List ContentItem) : List (String × String) :=
  imgs.foldl (fun m i => dictInsert m i.name ("images/" ++ pathName i.name)) []

/-- An image named `pic.png` in source directory `A`. -/
def exImg1 : ContentItem := ⟨"A/pic.png", true, "ONE", ⟨[]⟩⟩

/-- An image also named `pic.png` but in source directory `B`. -/
def exImg2 : ContentItem := ⟨"B/pic.png", true, "TWO", ⟨[]⟩⟩

/-! ## Helper lemmas about chapter processing -/

theorem isSubstring_empty_needle (hay : String) : isSubstring "" hay = true := by
  unfold isSubstring
  apply List.any_eq_true.mpr
  exact ⟨0, List.mem_range.mpr (Nat.succ_pos _), by simp⟩

theorem normTitle_of_all_whitespace {t : String} (h : t.data.all Char.isWhitespace) :
    normTitle t = "" := by
  unfold normTitle
  have hd : t.data.dropWhile Char.isWhitespace = [] := by
    rw [List.dropWhile_eq_nil_iff]
    intro x hx
    exact List.all_eq_true.mp h x hx
  rw [hd]
  rfl

theorem titleMatches_of_all_whitespace {t : String} (h : t.data.all Char.isWhitespace)
    (ht : String) : titleMatches t ht = true := by
  unfold titleMatches
  rw [normTitle_of_all_whitespace h, isSubstring_empty_needle]
  rfl

theorem rewriteImg_heading_eq (href : String) (m : List (String × String)) (e : Elem) :
    (match rewriteImg href m e with
     | Elem.heading _ t => some t
     | _ => (none : Option String))
      = (match e with
         | Elem.heading _ t => some t
         | _ => none) := by
  cases e with
  | img src =>
    cases src with
    | none => rfl
    | some s =>
      by_cases hs : s = ""
      · simp [rewriteImg, hs]
      · simp only [rewriteImg, hs, if_false]
        cases dictLookup m (normpath (pjoin (dirname href) s)) <;> rfl
  | heading lvl txt => rfl
  | text s => rfl

theorem rewriteImg_src_eq (href : String) (m : List (String × String)) (e : Elem) :
    (match rewriteImg href m e with
     | Elem.img (some s) => some s
     | _ => (none : Option String))
      = (match e with
         | Elem.img (some s) => some (if s = "" then s else specRewriteSrc href m s)
         | _ => none) := by
  cases e with
  | img src =>
    cases src with
    | none => rfl
    | some s =>
      by_cases hs : s = ""
      · simp [rewriteImg, hs]
      · simp only [rewriteImg, hs, if_false, specRewriteSrc]
        cases dictLookup m (normpath (pjoin (dirname href) s)) <;> rfl
  | heading lvl txt => rfl
  | text s => rfl

theorem headingTexts_map_rewrite (href : String) (m : List (String × String))
    (es : List Elem) :
    headingTexts ⟨es.map (rewriteImg href m)⟩ = headingTexts ⟨es⟩ := by
  induction es with
  | nil => rfl
  | cons e es ih =>
    simp only [headingTexts, List.map_cons, List.filterMap_cons] at *
    rw [rewriteImg_heading_eq]
    cases he : (match e with
                | Elem.heading _ t => some t
                | _ => (none : Option String)) with
    | none => simpa [he] using ih
    | some t => simpa [he] using ih

theorem imgSrcs_map_rewrite (href : String) (m : List (String × String))
    (es : List Elem) :
    imgSrcs ⟨es.map (rewriteImg href m)⟩
      = (imgSrcs ⟨es⟩).map (fun s => if s = "" then s else specRewriteSrc href m s) := by
  induction es with
  | nil => rfl
  | cons e es ih =>
    simp only [imgSrcs, List.map_cons, List.filterMap_cons] at *
    rw [rewriteImg_src_eq]
    cases he : (match e with
                | Elem.img (some s) => some s
                | _ => (none : Option String)) with
    | none =>
      cases e with
      | img src => cases src with
        | none => simpa using ih
        | some s => simp at he
      | heading lvl txt => simpa using ih
      | text s => simpa using ih
    | some s =>
      cases e with
      | img src => cases src with
        | none => simp at he
        | some s' =>
          simp only [Option.some.injEq] at he
          subst he
          simpa using ih
      | heading lvl txt => simp at he
      | text s' => simp at he

theorem removeFirst_headingTexts (t : String) :
    ∀ es : List Elem,
      headingTexts ⟨removeFirstHeadingIfDup t es⟩
        = match headingTexts ⟨es⟩ with
          | [] => []
          | ht :: rest => if titleMatches t ht then rest else ht :: rest
  | [] => rfl
  | Elem.heading lvl txt :: es => by
    simp only [removeFirstHeadingIfDup, headingTexts, List.filterMap_cons]
    by_cases h : titleMatches t txt <;> simp [h, headingTexts]
  | Elem.img src :: es => by
    have ih := removeFirst_headingTexts t es
    simp only [removeFirstHeadingIfDup, headingTexts, List.filterMap_cons] at *
    simpa using ih
  | Elem.text s :: es => by
    have ih := removeFirst_headingTexts t es
    simp only [removeFirstHeadingIfDup, headingTexts, List.filterMap_cons] at *
    simpa using ih

theorem removeFirst_imgSrcs (t : String) :
    ∀ es : List Elem, imgSrcs ⟨removeFirstHeadingIfDup t es⟩ = imgSrcs ⟨es⟩
  | [] => rfl
  | Elem.heading lvl txt :: es => by
    simp only [removeFirstHeadingIfDup]
    by_cases h : titleMatches t txt <;> simp [h, imgSrcs]
  | Elem.img src :: es => by
    have ih := removeFirst_imgSrcs t es
    simp only [removeFirstHeadingIfDup, imgSrcs, List.filterMap_cons] at *
    cases src <;> simpa using ih
  | Elem.text s :: es => by
    have ih := removeFirst_imgSrcs t es
    simp only [removeFirstHeadingIfDup, imgSrcs, List.filterMap_cons] at *
    simpa using ih

theorem processChapter_headingTexts (href t : String) (m : List (String × String))
    (d : Doc) :
    headingTexts (processChapter href t m d)
      = match headingTexts d with
        | [] => []
        | ht :: rest => if titleMatches t ht then rest else ht :: rest := by
  cases d with
  | mk es =>
    show headingTexts ⟨removeFirstHeadingIfDup t (es.map (rewriteImg href m))⟩ = _
    rw [removeFirst_headingTexts, headingTexts_map_rewrite]

/-! ## Helper lemmas about the recursive assembler -/

theorem addToc_headings (items : List ContentItem) (m : List (String × String))
    (b : String) :
    ∀ (nodes : List TocNode) (d : Nat),
      ((recursiveAddToc items m b nodes (d + 1)).1).filterMap blockHeading?
        = tocHeadingsSpec (fun h => (hrefMapLookup items h).isSome) b nodes d
  | [], _ => by simp [recursiveAddToc, tocHeadingsSpec]
  | TocNode.leaf t href :: rest, d => by
    have ih := addToc_headings items m b rest d
    simp only [recursiveAddToc, tocHeadingsSpec]
    cases hl : hrefMapLookup items (stripFragment href) with
    | some it =>
      by_cases ht : normTitle t ≠ normTitle b <;>
        simp [hl, ht, blockHeading?, ih]
    | none => simp [hl, ih]
  | TocNode.sec t cs :: rest, d => by
    have ih1 := addToc_headings items m b cs (d + 1)
    have ih2 := addToc_headings items m b rest d
    simp only [recursiveAddToc, tocHeadingsSpec]
    by_cases ht : normTitle t ≠ normTitle b <;>
      simp [ht, blockHeading?, ih1, ih2]
  termination_by nodes _ => sizeOf nodes

/-! ## Helper lemmas about writes, dictionaries and extraction -/

theorem applyWrites_apply (ws : List (String × String)) :
    ∀ (fs : String → Option String) (p : String),
      applyWrites fs ws p
        = match ws.reverse.find? (fun w => w.1 == p) with
          | some w => some w.2
          | none => fs p := by
  induction ws with
  | nil => intro fs p; rfl
  | cons w tl ih =>
    intro fs p
    show applyWrites (fun q => if q = w.1 then some w.2 else fs q) tl p = _
    rw [ih, List.reverse_cons, List.find?_append]
    cases h : tl.reverse.find? (fun w' => w'.1 == p) with
    | some w' => simp [h]
    | none =>
      simp only [h, Option.none_or]
      by_cases hp : p = w.1
      · simp [List.find?, hp]
      · have : (w.1 == p) = false := by
          simp [beq_eq_false_iff_ne]
          exact fun hw => hp hw.symm
        simp [List.find?, this, hp]

theorem applyWrites_twice (ws : List (String × String)) (fs : String → Option String)
    (p : String) :
    applyWrites (applyWrites fs ws) ws p = applyWrites fs ws p := by
  rw [applyWrites_apply, applyWrites_apply]
  cases h : ws.reverse.find? (fun w => w.1 == p) with
  | some w => simp
  | none => simp [applyWrites_apply, h]

theorem sanitizeGo_eq_filter :
    ∀ l : List Char, sanitizeTitle.go l = l.filter (fun c => !(isUnsafeChar c))
  | [] => rfl
  | c :: cs => by
    by_cases h : isUnsafeChar c <;>
      simp [sanitizeTitle.go, h, sanitizeGo_eq_filter cs, List.filter]

theorem sanitizeTitle_data (s : String) :
    (sanitizeTitle s).data = s.data.filter (fun c => !(isUnsafeChar c)) :=
  sanitizeGo_eq_filter s.data

theorem dictInsert_keys (m : List (String × String)) (k v : String) :
    (dictInsert m k v).map Prod.fst
      = if m.any (fun e => e.1 == k) then m.map Prod.fst
        else m.map Prod.fst ++ [k] := by
  unfold dictInsert
  by_cases h : m.any (fun e => e.1 == k) = true
  · rw [if_pos h, if_pos h, List.map_map]
    apply List.map_congr_left
    intro e _
    by_cases hek : e.1 = k
    · simp [hek]
    · simp [hek]
  · rw [if_neg h, if_neg h, List.map_append]
    rfl

theorem dictInsert_shape (g : String → String) (m : List (String × String)) (k : String)
    (hm : ∀ e ∈ m, e.2 = g e.1) : ∀ e ∈ dictInsert m k (g k), e.2 = g e.1 := by
  intro e he
  unfold dictInsert at he
  by_cases h : m.any (fun e => e.1 == k) = true
  · rw [if_pos h] at he
    obtain ⟨a, ha, hae⟩ := List.mem_map.mp he
    by_cases hak : a.1 = k
    · rw [if_pos (by simp [hak])] at hae
      rw [← hae]
    · rw [if_neg (by simp [hak])] at hae
      rw [← hae]
      exact hm a ha
  · rw [if_neg h] at he
    rcases List.mem_append.mp he with he' | he'
    · exact hm e he'
    · rw [List.mem_singleton.mp he']

theorem dictInsert_nodupKeys (m : List (String × String)) (k v : String)
    (h : (m.map Prod.fst).Nodup) : ((dictInsert m k v).map Prod.fst).Nodup := by
  rw [dictInsert_keys]
  by_cases ha : m.any (fun e => e.1 == k) = true
  · rw [if_pos ha]
    exact h
  · have hk : k ∉ m.map Prod.fst := by
      intro hmem
      obtain ⟨e, he, hek⟩ := List.mem_map.mp hmem
      exact ha (List.any_eq_true.mpr ⟨e, he, by simp [hek]⟩)
    rw [if_neg ha, ← List.concat_eq_append]
    exact List.Nodup.concat hk h

theorem dictInsert_mem_keys (m : List (String × String)) (k v : String) :
    k ∈ (dictInsert m k v).map Prod.fst := by
  rw [dictInsert_keys]
  by_cases ha : m.any (fun e => e.1 == k) = true
  · obtain ⟨e, he, hek⟩ := List.any_eq_true.mp ha
    rw [if_pos ha]
    exact List.mem_map.mpr ⟨e, he, eq_of_beq hek⟩
  · rw [if_neg ha]
    exact List.mem_append.mpr (Or.inr (List.mem_singleton.mpr rfl))

theorem dictInsert_keys_mono (m : List (String × String)) (k v : String) {q : String}
    (h : q ∈ m.map Prod.fst) : q ∈ (dictInsert m k v).map Prod.fst := by
  rw [dictInsert_keys]
  by_cases ha : m.any (fun e => e.1 == k) = true
  · rw [if_pos ha]; exact h
  · rw [if_neg ha]; exact List.mem_append.mpr (Or.inl h)

theorem dictInsert_keys_from (m : List (String × String)) (k v : String) {q : String}
    (h : q ∈ (dictInsert m k v).map Prod.fst) : q ∈ m.map Prod.fst ∨ q = k := by
  rw [dictInsert_keys] at h
  by_cases ha : m.any (fun e => e.1 == k) = true
  · rw [if_pos ha] at h
    exact Or.inl h
  · rw [if_neg ha] at h
    rcases List.mem_append.mp h with h' | h'
    · exact Or.inl h'
    · exact Or.inr (List.mem_singleton.mp h')

theorem dictLookup_of_shape (g : String → String) :
    ∀ (m : List (String × String)) (k : String), k ∈ m.map Prod.fst →
      (∀ e ∈ m, e.2 = g e.1) → dictLookup m k = some (g k)
  | [], k, h, _ => by simp at h
  | e :: tl, k, h, hs => by
    by_cases hek : e.1 == k
    · have h2 : e.2 = g e.1 := hs e (by simp)
      simp [dictLookup, List.find?, hek, h2, eq_of_beq hek]
    · have hk : k ∈ tl.map Prod.fst := by
        rcases List.mem_map.mp h with ⟨a, ha, hak⟩
        rcases List.mem_cons.mp ha with rfl | ha'
        · exact absurd (by simp [hak]) hek
        · exact List.mem_map.mpr ⟨a, ha', hak⟩
      have := dictLookup_of_shape g tl k hk (fun a ha => hs a (by simp [ha]))
      simpa [dictLookup, List.find?, hek] using this

theorem buildMapFold_shape (imgs : List ContentItem) :
    ∀ m : List (String × String), (∀ e ∈ m, e.2 = "images/" ++ pathName e.1) →
      ∀ e ∈ imgs.foldl (fun m i => dictInsert m i.name ("images/" ++ pathName i.name)) m,
        e.2 = "images/" ++ pathName e.1 := by
  induction imgs with
  | nil => intro m hm; simpa using hm
  | cons i tl ih =>
    intro m hm
    simp only [List.foldl_cons]
    exact ih _ (dictInsert_shape (fun n => "images/" ++ pathName n) m i.name hm)

theorem buildMapFold_nodup (imgs : List ContentItem) :
    ∀ m : List (String × String), (m.map Prod.fst).Nodup →
      ((imgs.foldl (fun m i => dictInsert m i.name ("images/" ++ pathName i.name)) m).map
        Prod.fst).Nodup := by
  induction imgs with
  | nil => intro m hm; simpa using hm
  | cons i tl ih =>
    intro m hm
    simp only [List.foldl_cons]
    exact ih _ (dictInsert_nodupKeys m i.name _ hm)

theorem buildMapFold_keys_mono (imgs : List ContentItem) :
    ∀ (m : List (String × String)) {q : String}, q ∈ m.map Prod.fst →
      q ∈ ((imgs.foldl (fun m i => dictInsert m i.name ("images/" ++ pathName i.name)) m).map
        Prod.fst) := by
  induction imgs with
  | nil => intro m q hm; simpa using hm
  | cons i tl ih =>
    intro m q hm
    simp only [List.foldl_cons]
    exact ih _ (dictInsert_keys_mono m i.name _ hm)

theorem buildMapFold_mem (imgs : List ContentItem) :
    ∀ (m : List (String × String)) (i : ContentItem), i ∈ imgs →
      i.name ∈ ((imgs.foldl (fun m i => dictInsert m i.name ("images/" ++ pathName i.name)) m).map
        Prod.fst) := by
  induction imgs with
  | nil => intro m i hi; simp at hi
  | cons j tl ih =>
    intro m i hi
    simp only [List.foldl_cons]
    rcases List.mem_cons.mp hi with rfl | hi'
    · exact buildMapFold_keys_mono tl _ (dictInsert_mem_keys m i.name _)
    · exact ih _ i hi'

theorem buildMapFold_keys_from (imgs : List ContentItem) :
    ∀ (m : List (String × String)) {q : String},
      q ∈ ((imgs.foldl (fun m i => dictInsert m i.name ("images/" ++ pathName i.name)) m).map
        Prod.fst) →
      q ∈ m.map Prod.fst ∨ ∃ i ∈ imgs, i.name = q := by
  induction imgs with
  | nil =>
    intro m q hm
    simp only [List.foldl_nil] at hm
    exact Or.inl hm
  | cons j tl ih =>
    intro m q hm
    simp only [List.foldl_cons] at hm
    rcases ih _ hm with h | ⟨i, hi, rfl⟩
    · rcases dictInsert_keys_from m j.name _ h with h' | rfl
      · exact Or.inl h'
      · exact Or.inr ⟨j, by simp⟩
    · exact Or.inr ⟨i, by simp [hi]⟩

theorem extractImages_ok (wf : String → Bool) (d : String) :
    ∀ (imgs : List ContentItem) (ws m : List (String × String)),
      (∀ i ∈ imgs, wf (d ++ "/" ++ pathName i.name) = false) →
      extractImages wf d imgs ws m
        = Except.ok
            (ws ++ imgs.map (fun i => (d ++ "/" ++ pathName i.name, i.content)),
             imgs.foldl (fun m i => dictInsert m i.name ("images/" ++ pathName i.name)) m)
  | [], ws, m, _ => by simp [extractImages]
  | i :: tl, ws, m, h => by
    have hi := h i (by simp)
    have ih := extractImages_ok wf d tl (ws ++ [(d ++ "/" ++ pathName i.name, i.content)])
      (dictInsert m i.name ("images/" ++ pathName i.name))
      (fun j hj => h j (by simp [hj]))
    simp [extractImages, hi, ih]

/-! ## The claims -/

/-- C1: for every table-of-contents forest, the generated headings of the
assembled document are, in pre-order document order, the book title at level 1
followed by one heading per emitted node whose level is its tree depth plus
one — top-of-forest nodes at `##` (depth 1), each `Section` nesting adding
exactly one, with no cap however deep the forest. -/
theorem toc_heading_levels_preorder (items : List ContentItem)
    (imageMap : List (String × String)) (title : String) (toc : List TocNode) :
    ((assembleBookBlocks items imageMap title toc).1).filterMap blockHeading?
      = (1, title) :: tocHeadingsSpec (fun h => (hrefMapLookup items h).isSome) title toc 1 := by
  simp only [assembleBookBlocks, List.filterMap_cons, blockHeading?]
  exact congrArg (List.cons (1, title)) (addToc_headings items imageMap title toc 1)

/-- C2: for a resolved leaf and for a section node, the heading block
`'#' * level ++ title` is emitted exactly when the node's normalised title
differs from the normalised book title, while the leaf's rendered chapter
content is appended and the section's children are walked at `level + 1`
whether or not the heading was suppressed. -/
theorem heading_iff_title_differs (items : List ContentItem)
    (m : List (String × String)) (b t href : String) (cs rest : List TocNode)
    (level : Nat) (it : ContentItem)
    (hres : hrefMapLookup items (stripFragment href) = some it) :
    ((recursiveAddToc items m b (TocNode.leaf t href :: rest) level).1
        = (if normTitle t ≠ normTitle b then [MdBlock.heading level t] else [])
          ++ [MdBlock.chapter (renderDoc (processChapter href t m it.doc))]
          ++ (recursiveAddToc items m b rest level).1)
    ∧ ((recursiveAddToc items m b (TocNode.sec t cs :: rest) level).1
        = (if normTitle t ≠ normTitle b then [MdBlock.heading level t] else [])
          ++ (recursiveAddToc items m b cs (level + 1)).1
          ++ (recursiveAddToc items m b rest level).1) := by
  constructor
  · simp only [recursiveAddToc, hres]
  · simp only [recursiveAddToc]

/-- Witness for C2 at a concrete resolved leaf and section. -/
theorem heading_iff_title_differs_witness :
    ((recursiveAddToc [exItemA] [] "Book" [TocNode.leaf "Ch" "a.xhtml#x"] 2).1
        = (if normTitle "Ch" ≠ normTitle "Book" then [MdBlock.heading 2 "Ch"] else [])
          ++ [MdBlock.chapter (renderDoc (processChapter "a.xhtml#x" "Ch" [] exItemA.doc))]
          ++ (recursiveAddToc [exItemA] [] "Book" [] 2).1)
    ∧ ((recursiveAddToc [exItemA] [] "Book" [TocNode.sec "Ch" []] 2).1
        = (if normTitle "Ch" ≠ normTitle "Book" then [MdBlock.heading 2 "Ch"] else [])
          ++ (recursiveAddToc [exItemA] [] "Book" [] 3).1
          ++ (recursiveAddToc [exItemA] [] "Book" [] 2).1) :=
  ⟨(heading_iff_title_differs [exItemA] [] "Book" "Ch" "a.xhtml#x" [] [] 2 exItemA
      (by decide)).1,
   (heading_iff_title_differs [exItemA] [] "Book" "Ch" "a.xhtml#x" [] [] 2 exItemA
      (by decide)).2⟩

/-- C3: for every chapter whose body has at least one heading, that first
heading is removed exactly when the normalised chapter title and the
normalised heading text contain one another (in either direction), and the
remaining headings are untouched. -/
theorem first_heading_removed_iff_overlap (href t : String)
    (m : List (String × String)) (d : Doc) (ht : String) (rest : List String)
    (h : headingTexts d = ht :: rest) :
    headingTexts (processChapter href t m d)
      = if titleMatches t ht then rest else ht :: rest := by
  rw [processChapter_headingTexts, h]

/-- Witness for C3 at a concrete chapter: toc title "Chapter 1: Beginnings",
first body heading "Beginnings". -/
theorem first_heading_removed_iff_overlap_witness :
    headingTexts exHeadDoc = "Beginnings" :: ["Other"]
    ∧ headingTexts (processChapter "a.xhtml" "Chapter 1: Beginnings" [] exHeadDoc)
        = if titleMatches "Chapter 1: Beginnings" "Beginnings" then ["Other"]
          else "Beginnings" :: ["Other"] :=
  ⟨by decide,
   first_heading_removed_iff_overlap "a.xhtml" "Chapter 1: Beginnings" [] exHeadDoc
     "Beginnings" ["Other"] (by decide)⟩

/-- C4: a leaf whose fragment-stripped href misses `href_map` contributes no
block at all, logs the warning, and leaves the remaining traversal exactly as
it would have been without the leaf. -/
theorem missing_link_skipped_with_warning (items : List ContentItem)
    (m : List (String × String)) (b t href : String) (rest : List TocNode)
    (level : Nat) (h : hrefMapLookup items (stripFragment href) = none) :
    (recursiveAddToc items m b (TocNode.leaf t href :: rest) level).1
        = (recursiveAddToc items m b rest level).1
    ∧ (recursiveAddToc items m b (TocNode.leaf t href :: rest) level).2
        = warnMissing href :: (recursiveAddToc items m b rest level).2 := by
  constructor
  · simp only [recursiveAddToc, h]
  · simp only [recursiveAddToc, h]

/-- Witness for C4 at a concrete missing href with a live sibling after it. -/
theorem missing_link_skipped_with_warning_witness :
    (recursiveAddToc [exItemA] [] "B"
        (TocNode.leaf "Gone" "c.xhtml#x" :: [TocNode.leaf "Intro" "a.xhtml"]) 2).1
      = (recursiveAddToc [exItemA] [] "B" [TocNode.leaf "Intro" "a.xhtml"] 2).1
    ∧ (recursiveAddToc [exItemA] [] "B"
        (TocNode.leaf "Gone" "c.xhtml#x" :: [TocNode.leaf "Intro" "a.xhtml"]) 2).2
      = warnMissing "c.xhtml#x"
          :: (recursiveAddToc [exItemA] [] "B" [TocNode.leaf "Intro" "a.xhtml"] 2).2 :=
  missing_link_skipped_with_warning [exItemA] [] "B" "Gone" "c.xhtml#x"
    [TocNode.leaf "Intro" "a.xhtml"] 2 (by decide)

/-- C10: when the chapter's toc title is empty or all whitespace, its
normalisation is the empty string, which is a substring of every heading
text, so the first heading of a chapter body that has any heading is always
removed. -/
theorem whitespace_title_always_removes_first_heading (href t : String)
    (m : List (String × String)) (d : Doc) (ht : String) (rest : List String)
    (hw : t.data.all Char.isWhitespace) (h : headingTexts d = ht :: rest) :
    headingTexts (processChapter href t m d) = rest := by
  rw [processChapter_headingTexts, h]
  show (if titleMatches t ht = true then rest else ht :: rest) = rest
  rw [titleMatches_of_all_whitespace hw]
  simp

/-- Witness for C10: an all-whitespace title removes "Beginnings". -/
theorem whitespace_title_always_removes_first_heading_witness :
    ("  ".data.all Char.isWhitespace) = true
    ∧ headingTexts (processChapter "a.xhtml" "  " [] exHeadDoc) = ["Other"] :=
  ⟨by decide,
   whitespace_title_always_removes_first_heading "a.xhtml" "  " [] exHeadDoc
     "Beginnings" ["Other"] (by decide) (by decide)⟩

/-- C5 counterexample: with a failing write, converting a readable book
escapes with an error instead of returning, and a run over two books aborts
at the first — the second book is never converted. -/
theorem write_failure_escapes_counterexample :
    convertEpubToMarkdown (fun _ => true) exFileOk "out"
        = Except.error "write failed: out/B/images/i.png"
    ∧ mainRun (fun _ => true) [exFileOk, exFileOk] "out"
        = Except.error "write failed: out/B/images/i.png" :=
  ⟨rfl, rfl⟩

/-- C5 (amended): failures detected while reading the EPUB (a missing input
file, an unreadable container) are contained inside
`convert_epub_to_markdown`, which returns normally so the run proceeds; but a
failing image or Markdown file write escapes the per-book conversion and
aborts the whole run, so the books after it are not converted. -/
theorem error_containment_amended :
    (∀ (wf : String → Bool) (f : EpubFile) (out : String),
        f.present = false →
          convertEpubToMarkdown wf f out
            = Except.ok ⟨[], [], ["文件不存在: " ++ f.stem]⟩)
    ∧ (∀ (wf : String → Bool) (f : EpubFile) (out e : String),
        f.present = true → f.parse = Except.error e →
          convertEpubToMarkdown wf f out
            = Except.ok ⟨[], [], ["无法读取 EPUB 文件: " ++ e]⟩)
    ∧ (∀ (wf : String → Bool) (f : EpubFile) (fs : List EpubFile) (out e : String),
        convertEpubToMarkdown wf f out = Except.error e →
          mainRun wf (f :: fs) out = Except.error e) := by
  refine ⟨?_, ?_, ?_⟩
  · intro wf f out h
    simp [convertEpubToMarkdown, h]
  · intro wf f out e hp h
    simp [convertEpubToMarkdown, hp, h]
  · intro wf f fs out e h
    simp [mainRun, h]

/-- Witness for C5 (amended) at concrete inputs: a missing file and a corrupt
file are contained; a write failure aborts the two-book run. -/
theorem error_containment_amended_witness :
    convertEpubToMarkdown (fun _ => true) exFileMissing "out"
        = Except.ok ⟨[], [], ["文件不存在: " ++ exFileMissing.stem]⟩
    ∧ convertEpubToMarkdown (fun _ => true) exFileBad "out"
        = Except.ok ⟨[], [], ["无法读取 EPUB 文件: " ++ "zip"]⟩
    ∧ mainRun (fun _ => true) [exFileOk, exFileOk] "out"
        = Except.error "write failed: out/B/images/i.png" :=
  ⟨error_containment_amended.1 (fun _ => true) exFileMissing "out" rfl,
   error_containment_amended.2.1 (fun _ => true) exFileBad "out" "zip" rfl rfl,
   error_containment_amended.2.2 (fun _ => true) exFileOk [exFileOk] "out"
     "write failed: out/B/images/i.png" rfl⟩

/-- C6: with no write failure, image extraction writes each image's raw bytes
to `<imagesDir>/<basename>` in item order, maps each original in-archive path
to `images/<basename>`, keeps the map's keys distinct and drawn from the
original paths, sends two images sharing a basename to the same output file,
and the file contents after the writes are those of the last write to each
path. -/
theorem image_extraction_contract (wf : String → Bool) (imagesDir : String)
    (imgs : List ContentItem)
    (hwf : ∀ i ∈ imgs, wf (imagesDir ++ "/" ++ pathName i.name) = false) :
    extractImages wf imagesDir imgs [] []
        = Except.ok
            (imgs.map (fun i => (imagesDir ++ "/" ++ pathName i.name, i.content)),
             buildImageMap imgs)
    ∧ (∀ i ∈ imgs, dictLookup (buildImageMap imgs) i.name
          = some ("images/" ++ pathName i.name))
    ∧ ((buildImageMap imgs).map Prod.fst).Nodup
    ∧ (∀ k ∈ (buildImageMap imgs).map Prod.fst, ∃ i ∈ imgs, i.name = k)
    ∧ (∀ i ∈ imgs, ∀ j ∈ imgs, pathName i.name = pathName j.name →
          imagesDir ++ "/" ++ pathName i.name = imagesDir ++ "/" ++ pathName j.name)
    ∧ (∀ p, applyWrites emptyFS
            (imgs.map (fun i => (imagesDir ++ "/" ++ pathName i.name, i.content))) p
          = match (imgs.map (fun i => (imagesDir ++ "/" ++ pathName i.name,
                i.content))).reverse.find? (fun w => w.1 == p) with
            | some w => some w.2
            | none => none) := by
  refine ⟨?_, ?_, ?_, ?_, ?_, ?_⟩
  · exact extractImages_ok wf imagesDir imgs [] [] hwf
  · intro i hi
    exact dictLookup_of_shape (fun n => "images/" ++ pathName n) (buildImageMap imgs)
      i.name (buildMapFold_mem imgs [] i hi) (buildMapFold_shape imgs [] (by simp))
  · exact buildMapFold_nodup imgs [] (by simp)
  · intro k hk
    rcases buildMapFold_keys_from imgs [] hk with h | h
    · simp at h
    · exact h
  · intro i _ j _ hij
    rw [hij]
  · intro p
    exact applyWrites_apply _ emptyFS p

/-- Witness for C6: two images with the same basename in different source
directories, no write failing. -/
theorem image_extraction_contract_witness :
    extractImages (fun _ => false) "o/T/images" [exImg1, exImg2] [] []
        = Except.ok
            ([exImg1, exImg2].map
              (fun i => ("o/T/images" ++ "/" ++ pathName i.name, i.content)),
             buildImageMap [exImg1, exImg2])
    ∧ dictLookup (buildImageMap [exImg1, exImg2]) exImg1.name
        = some ("images/" ++ pathName exImg1.name)
    ∧ dictLookup (buildImageMap [exImg1, exImg2]) exImg2.name
        = some ("images/" ++ pathName exImg2.name)
    ∧ ((buildImageMap [exImg1, exImg2]).map Prod.fst).Nodup :=
  ⟨(image_extraction_contract (fun _ => false) "o/T/images" [exImg1, exImg2]
      (by decide)).1,
   (image_extraction_contract (fun _ => false) "o/T/images" [exImg1, exImg2]
      (by decide)).2.1 exImg1 (by decide),
   (image_extraction_contract (fun _ => false) "o/T/images" [exImg1, exImg2]
      (by decide)).2.1 exImg2 (by decide),
   (image_extraction_contract (fun _ => false) "o/T/images" [exImg1, exImg2]
      (by decide)).2.2.1⟩

/-- C7 counterexample: an `<img src="">` inside chapter `Text/ch1.xhtml`
joins and normalises to `Text`, which the image map knows, so the claim as
stated requires a rewrite — but the code leaves the empty source untouched
(Python treats `""` as falsy at line 20). -/
theorem empty_src_not_rewritten_counterexample :
    imgSrcs (processChapter "Text/ch1.xhtml" "t" [("Text", "images/Text")] imgOnlyDoc)
        = [""]
    ∧ normpath (pjoin (dirname "Text/ch1.xhtml") "") = "Text"
    ∧ dictLookup [("Text", "images/Text")] "Text" = some "images/Text"
    ∧ (imgSrcs imgOnlyDoc).map (specRewriteSrc "Text/ch1.xhtml" [("Text", "images/Text")])
        = ["images/Text"]
    ∧ imgSrcs (processChapter "Text/ch1.xhtml" "t" [("Text", "images/Text")] imgOnlyDoc)
        ≠ (imgSrcs imgOnlyDoc).map
            (specRewriteSrc "Text/ch1.xhtml" [("Text", "images/Text")]) := by
  refine ⟨by decide, by decide, by decide, by decide, by decide⟩

/-- C7 (amended): every img reference with a non-empty source path is joined
to the chapter's own directory, normalised, rewritten to the mapped value
exactly when the image map knows the result and left untouched otherwise;
an empty source path is always left untouched.  The rewrite is total — no
error can arise. -/
theorem img_src_rewrite_amended (href t : String) (m : List (String × String))
    (d : Doc) :
    imgSrcs (processChapter href t m d)
      = (imgSrcs d).map (fun s => if s = "" then s else specRewriteSrc href m s) := by
  cases d with
  | mk es =>
    show imgSrcs ⟨removeFirstHeadingIfDup t (es.map (rewriteImg href m))⟩ = _
    rw [removeFirst_imgSrcs, imgSrcs_map_rewrite]

/-- C8: a successful conversion writes, as its final write, the file
`<output_dir>/<sanitized title>/<sanitized title>.md` whose content is the
block `# <book title>` followed by the assembled blocks in traversal order
joined with `"\n"` (each block ends in its own newline, so the separator is
blank-line-equivalent); sanitisation deletes exactly the characters
`\/*?:":<>|` and substitutes nothing. -/
theorem markdown_emitter_contract (wf : String → Bool) (f : EpubFile) (out : String)
    (book : Book) (hp : f.present = true) (hb : f.parse = Except.ok book)
    (hwf : ∀ p, wf p = false) :
    convertEpubToMarkdown wf f out
      = Except.ok
          ⟨((book.items.filter (fun i => i.isImage)).map
              (fun i => (out ++ "/" ++ sanitizeTitle ((book.titles.head?).getD f.stem)
                  ++ "/images" ++ "/" ++ pathName i.name, i.content)))
            ++ [(out ++ "/" ++ sanitizeTitle ((book.titles.head?).getD f.stem) ++ "/"
                  ++ sanitizeTitle ((book.titles.head?).getD f.stem) ++ ".md",
                String.intercalate "\n"
                  ((assembleBookBlocks book.items
                      (buildImageMap (book.items.filter (fun i => i.isImage)))
                      ((book.titles.head?).getD f.stem) book.toc).1.map blockStr))],
           (assembleBookBlocks book.items
              (buildImageMap (book.items.filter (fun i => i.isImage)))
              ((book.titles.head?).getD f.stem) book.toc).2,
           []⟩
    ∧ ((assembleBookBlocks book.items
          (buildImageMap (book.items.filter (fun i => i.isImage)))
          ((book.titles.head?).getD f.stem) book.toc).1.map blockStr).head?
        = some ("# " ++ (book.titles.head?).getD f.stem ++ "\n")
    ∧ (∀ s : String, (sanitizeTitle s).data
        = s.data.filter (fun c => !(isUnsafeChar c))) := by
  have hext := extractImages_ok wf
      (out ++ "/" ++ sanitizeTitle ((book.titles.head?).getD f.stem) ++ "/images")
      (book.items.filter (fun i => i.isImage)) [] [] (fun i _ => hwf _)
  refine ⟨?_, ?_, sanitizeTitle_data⟩
  · simp only [convertEpubToMarkdown, hp, hb, Bool.not_true, if_false, hext, hwf,
      buildImageMap, List.nil_append]
    simp
  · simp only [assembleBookBlocks, List.map_cons, List.head?_cons, blockStr]
    rfl

/-- Witness for C8: the concrete book `exBook` converted with no write
failing. -/
theorem markdown_emitter_contract_witness :
    convertEpubToMarkdown (fun _ => false) exFileOk "out"
      = Except.ok
          ⟨((exBook.items.filter (fun i => i.isImage)).map
              (fun i => ("out" ++ "/" ++ sanitizeTitle ((exBook.titles.head?).getD exFileOk.stem)
                  ++ "/images" ++ "/" ++ pathName i.name, i.content)))
            ++ [("out" ++ "/" ++ sanitizeTitle ((exBook.titles.head?).getD exFileOk.stem) ++ "/"
                  ++ sanitizeTitle ((exBook.titles.head?).getD exFileOk.stem) ++ ".md",
                String.intercalate "\n"
                  ((assembleBookBlocks exBook.items
                      (buildImageMap (exBook.items.filter (fun i => i.isImage)))
                      ((exBook.titles.head?).getD exFileOk.stem) exBook.toc).1.map blockStr))],
           (assembleBookBlocks exBook.items
              (buildImageMap (exBook.items.filter (fun i => i.isImage)))
              ((exBook.titles.head?).getD exFileOk.stem) exBook.toc).2,
           []⟩
    ∧ ((assembleBookBlocks exBook.items
          (buildImageMap (exBook.items.filter (fun i => i.isImage)))
          ((exBook.titles.head?).getD exFileOk.stem) exBook.toc).1.map blockStr).head?
        = some ("# " ++ (exBook.titles.head?).getD exFileOk.stem ++ "\n")
    ∧ (sanitizeTitle "A/B:C*D").data
        = "A/B:C*D".data.filter (fun c => !(isUnsafeChar c)) :=
  ⟨(markdown_emitter_contract (fun _ => false) exFileOk "out" exBook rfl rfl
      (fun _ => rfl)).1,
   (markdown_emitter_contract (fun _ => false) exFileOk "out" exBook rfl rfl
      (fun _ => rfl)).2.1,
   (markdown_emitter_contract (fun _ => false) exFileOk "out" exBook rfl rfl
      (fun _ => rfl)).2.2 "A/B:C*D"⟩

/-- C9: the conversion is deterministic — two runs of the per-book conversion
on the same input book yield the same write list, so starting both from an
empty output directory gives byte-identical file contents, and even re-running
over the first run's output reproduces the same bytes at every path. -/
theorem conversion_deterministic (wf : String → Bool) (f : EpubFile) (out : String)
    (t1 t2 : RunTrace)
    (h1 : convertEpubToMarkdown wf f out = Except.ok t1)
    (h2 : convertEpubToMarkdown wf f out = Except.ok t2) :
    t1.writes = t2.writes
    ∧ (∀ p, applyWrites emptyFS t1.writes p = applyWrites emptyFS t2.writes p)
    ∧ (∀ p, applyWrites (applyWrites emptyFS t1.writes) t2.writes p
          = applyWrites emptyFS t1.writes p) := by
  have ht : t1 = t2 := Except.ok.inj (h1.symm.trans h2)
  subst ht
  exact ⟨rfl, fun p => rfl, fun p => applyWrites_twice _ _ p⟩

/-- Witness for C9: two runs of the conversion of `exFilePlain` agree, and
re-running over the leftovers reproduces the Markdown bytes. -/
theorem conversion_deterministic_witness :
    (RunTrace.mk [("out/B/B.md", "# B\n")] [] []).writes
        = (RunTrace.mk [("out/B/B.md", "# B\n")] [] []).writes
    ∧ applyWrites
          (applyWrites emptyFS (RunTrace.mk [("out/B/B.md", "# B\n")] [] []).writes)
          (RunTrace.mk [("out/B/B.md", "# B\n")] [] []).writes "out/B/B.md"
        = applyWrites emptyFS (RunTrace.mk [("out/B/B.md", "# B\n")] [] []).writes
            "out/B/B.md" := by
  have h : convertEpubToMarkdown (fun _ => false) exFilePlain "out"
      = Except.ok ⟨[("out/B/B.md", "# B\n")], [], []⟩ := by
    simp only [convertEpubToMarkdown, exFilePlain, exBookPlain, exItemA, exDoc,
      assembleBookBlocks, extractImages]
    simp [recursiveAddToc]
    exact ⟨by decide, by decide⟩
  have hc := conversion_deterministic (fun _ => false) exFilePlain "out" _ _ h h
  exact ⟨hc.1, hc.2.2 "out/B/B.md"⟩

end EpubToMarkdown
